import Mathlib

/-!
Shallow embedding of `src/grain_mcp_server/parser.py` (grain-mcp-server).

HTML documents are modelled as trees (`HNode`); BeautifulSoup's string-to-tree
front end is the trusted boundary, and every parser operation used by
`parse_meetings` (`find(id=...)`, `find_all`, `find('h3')`,
`find_previous_sibling('div')`, `find_next_sibling()`, `get_text(strip=True)`,
attribute lookup) is embedded over that tree model.  Python's `datetime.now().year`
is threaded as an explicit `nowYear` parameter.  Regular-expression searches from
the source are embedded as deterministic scanners equivalent to the specific
patterns used (`recordings?/([^/]+)`, the grain date pattern, `\b(20\d{2})\b`).
-/

namespace Grain

/-- A node of the parsed HTML tree: an element with tag name, attributes and
children, or a text node. -/
inductive HNode where
  | elem (tag : String) (attrs : List (String × String)) (children : List HNode)
  | text (s : String)

/-- Python `str.isspace`-style whitespace characters relevant to `str.strip()`
and the regex class `\s` (ASCII fragment). -/
def pySpace (c : Char) : Bool :=
  c == ' ' || c == '\t' || c == '\n' || c == '\r' || c == '\x0b' || c == '\x0c'

/-- ASCII lower-casing of a character, as Python `str.lower()` acts on ASCII. -/
def asciiLower (c : Char) : Char :=
  if 'A' ≤ c ∧ c ≤ 'Z' then Char.ofNat (c.toNat + 32) else c

/-- ASCII upper-casing of a character, as Python `str.upper()` acts on ASCII. -/
def asciiUpper (c : Char) : Char :=
  if 'a' ≤ c ∧ c ≤ 'z' then Char.ofNat (c.toNat - 32) else c

/-- ASCII letter, the regex class `[A-Za-z]`. -/
def isAsciiAlpha (c : Char) : Bool :=
  ('A' ≤ c && c ≤ 'Z') || ('a' ≤ c && c ≤ 'z')

/-- ASCII digit, the regex class `\d` (ASCII fragment). -/
def isDigitC (c : Char) : Bool := '0' ≤ c && c ≤ '9'

/-- Regex word character (`\w`, ASCII fragment), used for `\b` boundaries. -/
def isWordChar (c : Char) : Bool := isAsciiAlpha c || isDigitC c || c == '_'

/-- Python `str.strip()` on a character list. -/
def pyStrip (cs : List Char) : List Char :=
  ((cs.dropWhile pySpace).reverse.dropWhile pySpace).reverse

/-- Python `int(...)` on a nonempty string of decimal digits. -/
def natOfDigits (ds : List Char) : Nat :=
  ds.foldl (fun a c => 10 * a + (c.toNat - 48)) 0

/-- All text-node strings of a node's subtree, in document order
(BeautifulSoup `_all_strings`). -/
def nodeStrings : HNode → List String
  | .text s => [s]
  | .elem _ _ ch => forestStrings ch
where
  forestStrings : List HNode → List String
    | [] => []
    | c :: rest => nodeStrings c ++ forestStrings rest

/-- BeautifulSoup `element.get_text(strip=True)`: each descendant string is
stripped, whitespace-only strings are dropped, and the rest are concatenated. -/
def getText (n : HNode) : String :=
  String.mk (List.flatten (((nodeStrings n).map (fun s => pyStrip s.data)).filter (· ≠ [])))

/-- `get_text_content` from parser.py: `None` in, `None` out; otherwise the
stripped text of the element. -/
def get_text_content : Option HNode → Option String
  | none => none
  | some e => some (getText e)

/-- Attribute lookup on a tag (`tag.get(key)` / attribute matching). -/
def getAttr (attrs : List (String × String)) (k : String) : Option String :=
  match attrs with
  | [] => none
  | (a, v) :: rest => if a = k then some v else getAttr rest k

/-- Children of a node (a text node has none). -/
def childrenOf : HNode → List HNode
  | .elem _ _ ch => ch
  | .text _ => []

/-- Attributes of a node (a text node has none). -/
def attrsOf : HNode → List (String × String)
  | .elem _ a _ => a
  | .text _ => []

/-- Is this node a `div` element?  (`find_previous_sibling(name='div')`
matches element siblings named `div` only.) -/
def isDiv : HNode → Bool
  | .elem t _ _ => t == "div"
  | _ => false

/-! ### `parse_meeting_id`: the regex search `recordings?/([^/]+)` -/

/-- Match a literal character-list prefix, returning the remainder. -/
def dropPrefixCh : List Char → List Char → Option (List Char)
  | [], cs => some cs
  | _ :: _, [] => none
  | p :: ps, c :: cs => if c = p then dropPrefixCh ps cs else none

/-- The greedy capture `([^/]+)` at the current position (must be nonempty). -/
def idShort (cs : List Char) : Option (List Char) :=
  match dropPrefixCh "recording/".data cs with
  | some rest =>
    let seg := rest.takeWhile (fun c => !(c == '/'))
    if seg.isEmpty then none else some seg
  | none => none

/-- Attempt of the pattern `recordings?/([^/]+)` anchored at the current
position, with the greedy `s?` tried first and backtracking to the short
alternative, exactly as the regex engine would. -/
def idAt (cs : List Char) : Option (List Char) :=
  match dropPrefixCh "recordings/".data cs with
  | some rest =>
    let seg := rest.takeWhile (fun c => !(c == '/'))
    if seg.isEmpty then idShort cs else some seg
  | none => idShort cs

/-- `re.search`: leftmost position at which the pattern matches. -/
def idScan : List Char → Option (List Char)
  | [] => none
  | c :: rest =>
    match idAt (c :: rest) with
    | some seg => some seg
    | none => idScan rest

/-- `parse_meeting_id` from parser.py: search the URL for
`recordings?/([^/]+)` and return the captured segment, else `None`. -/
def parse_meeting_id (url : String) : Option String :=
  (idScan url.data).map String.mk

/-! ### Structural locator: `soup.find(id=...)` and
`find_all('a', attrs={'role': 'article', 'data-cy': 'meeting-list-item'})` -/

mutual

/-- `soup.find(id=i)` on one node: the node itself if its `id` attribute
equals `i`, else the first match in its subtree (preorder). -/
def findByIdNode (i : String) : HNode → Option HNode
  | .text _ => none
  | .elem t a ch =>
    if getAttr a "id" = some i then some (.elem t a ch)
    else findByIdForest i ch

/-- `soup.find(id=i)` on a sibling list, left to right. -/
def findByIdForest (i : String) : List HNode → Option HNode
  | [] => none
  | c :: rest =>
    match findByIdNode i c with
    | some r => some r
    | none => findByIdForest i rest

end

/-- Is this node an `<a role="article" data-cy="meeting-list-item">` element —
the `find_all` filter for meeting items? -/
def isMeetingItem : HNode → Bool
  | .elem t a _ =>
    t == "a" && getAttr a "role" == some "article"
      && getAttr a "data-cy" == some "meeting-list-item"
  | .text _ => false

/-- A located item node together with its sibling context inside its parent:
`prev` are the preceding siblings in document order, `next` the following ones.
BeautifulSoup items carry parent pointers; this is the zipper equivalent. -/
structure ItemCtx where
  prev : List HNode
  node : HNode
  next : List HNode

mutual

/-- `find_all` within one node: the matching descendants of the node, in
document (preorder) order, each with its sibling context. -/
def collectNode : HNode → List ItemCtx
  | .text _ => []
  | .elem _ _ ch => collectGo [] ch

/-- `find_all` over a children list: matching descendants in document
(preorder) order, each paired with its sibling context.  `prev` accumulates the
siblings already passed. -/
def collectGo (prev : List HNode) : List HNode → List ItemCtx
  | [] => []
  | c :: rest =>
    (if isMeetingItem c then [⟨prev, c, rest⟩] else [])
      ++ collectNode c ++ collectGo (prev ++ [c]) rest

end

/-! ### Title location: `item.find('h3')` and `title_el.parent.find_next_sibling()` -/

mutual

/-- `find('h3')` within one candidate node `c`: `some (h, none)` when `c`
itself is the `h3`; `some (h, some none)` when the first `h3` of `c`'s subtree
is a direct child of `c` (its parent is `c`, whose following siblings the list
level knows); `some (h, some (some sibs))` when it lies deeper and the
following-sibling list of its parent is already determined. -/
def findH3Node : HNode → Option (HNode × Option (Option (List HNode)))
  | .text _ => none
  | .elem t a ch =>
    if t = "h3" then some (.elem t a ch, none)
    else
      match findH3 ch with
      | some (h, none) => some (h, some none)
      | some (h, some sibs) => some (h, some (some sibs))
      | none => none

/-- First `h3` element in preorder among descendants of the searched node,
together with the following-sibling list of its parent: `some sibs` when the
parent is a proper descendant of the searched node, `none` when the `h3` is a
direct child (its parent IS the searched node, whose external following
siblings the caller must supply). -/
def findH3 : List HNode → Option (HNode × Option (List HNode))
  | [] => none
  | c :: rest =>
    match findH3Node c with
    | some (h, none) => some (h, none)
    | some (h, some none) => some (h, some rest)
    | some (h, some (some sibs)) => some (h, some sibs)
    | none => findH3 rest

end

/-- `find_next_sibling()` with no criteria: the first following sibling that is
an element (strings are skipped). -/
def firstElem : List HNode → Option HNode
  | [] => none
  | .elem t a ch :: _ => some (.elem t a ch)
  | .text _ :: rest => firstElem rest

/-! ### Year recovery: `re.search(r'\b(20\d{2})\b', text)` over preceding
`div` siblings -/

/-- `\b` left boundary: start of string, or the previous character is not a
word character. -/
def yearBoundaryOk : Option Char → Bool
  | none => true
  | some c => !isWordChar c

/-- Match of `(20\d{2})\b` anchored at the current position, returning the
year value `int("20" + d1 + d2)`. -/
def yearAt : List Char → Option Nat
  | '2' :: '0' :: d1 :: d2 :: rest =>
    if isDigitC d1 && isDigitC d2
        && (match rest with | [] => true | c :: _ => !isWordChar c)
    then some (2000 + 10 * (d1.toNat - 48) + (d2.toNat - 48))
    else none
  | _ => none

/-- `re.search`: scan left to right for the first position where
`\b(20\d{2})\b` matches, remembering the previous character for the left
boundary. -/
def yearScanGo (prev : Option Char) : List Char → Option Nat
  | [] => none
  | c :: rest =>
    match (if yearBoundaryOk prev then yearAt (c :: rest) else none) with
    | some y => some y
    | none => yearScanGo (some c) rest

/-- `re.search(r'\b(20\d{2})\b', s)` as a year value. -/
def yearSearch (cs : List Char) : Option Nat := yearScanGo none cs

/-- Loop body of the year scan in `parse_meeting_data`: take the sibling's
text; if it is truthy (nonempty), search it for a year. -/
def divYear (s : HNode) : Option Nat :=
  let t := getText s
  if t = "" then none else yearSearch t.data

/-- The `find_previous_sibling('div')` walk: previous siblings nearest first,
`div` elements only, first year found wins. -/
def recoverGo : List HNode → Option Nat
  | [] => none
  | s :: rest =>
    if isDiv s then
      match divYear s with
      | some y => some y
      | none => recoverGo rest
    else recoverGo rest

/-- Year recovery from the item's preceding siblings (given in document
order: the walk goes backward, i.e. over their reverse). -/
def recoverYear (prev : List HNode) : Option Nat := recoverGo prev.reverse

/-! ### `parse_date_to_iso` -/

/-- The optional ordinal suffix `(?:st|nd|rd|th)?` (case-insensitive): consume
it when present.  When the two next characters do not form a suffix the regex
also matches with the empty alternative, so the input is returned unchanged. -/
def stripOrdinal : List Char → List Char
  | a :: b :: rest =>
    if (asciiLower a == 's' && asciiLower b == 't')
        || (asciiLower a == 'n' && asciiLower b == 'd')
        || (asciiLower a == 'r' && asciiLower b == 'd')
        || (asciiLower a == 't' && asciiLower b == 'h')
    then rest else a :: b :: rest
  | cs => cs

/-- `re.match` of the grain date pattern
`([A-Za-z]+),\s+(\d+)(?:st|nd|rd|th)?\s+(\d+):(\d+)\s+(AM|PM)` with
`re.IGNORECASE`, anchored at the start, trailing text ignored.  Each
quantified class is disjoint from what follows it, so the greedy scan below is
exactly the backtracking regex.  Returns the month token, day, hour and minute
values, and the two matched meridiem characters. -/
def grainMatch (cs : List Char) : Option (List Char × Nat × Nat × Nat × (Char × Char)) :=
  let (mo, r1) := cs.span isAsciiAlpha
  if mo.isEmpty then none else
  match r1 with
  | ',' :: r2 =>
    let (sp1, r3) := r2.span pySpace
    if sp1.isEmpty then none else
    let (ds, r4) := r3.span isDigitC
    if ds.isEmpty then none else
    let r5 := stripOrdinal r4
    let (sp2, r6) := r5.span pySpace
    if sp2.isEmpty then none else
    let (hs, r7) := r6.span isDigitC
    if hs.isEmpty then none else
    match r7 with
    | ':' :: r8 =>
      let (ms, r9) := r8.span isDigitC
      if ms.isEmpty then none else
      let (sp3, r10) := r9.span pySpace
      if sp3.isEmpty then none else
      match r10 with
      | a :: m :: _ =>
        if (asciiLower a == 'a' || asciiLower a == 'p') && asciiLower m == 'm'
        then some (mo, natOfDigits ds, natOfDigits hs, natOfDigits ms, (a, m))
        else none
      | _ => none
    | _ => none
  | _ => none

/-- The `months` dictionary of `parse_date_to_iso`. -/
def monthsTable : List (List Char × Nat) :=
  [("jan".data, 1), ("feb".data, 2), ("mar".data, 3), ("apr".data, 4),
   ("may".data, 5), ("jun".data, 6), ("jul".data, 7), ("aug".data, 8),
   ("sep".data, 9), ("oct".data, 10), ("nov".data, 11), ("dec".data, 12)]

/-- `months.get(key)` — dictionary lookup without the default. -/
def monthsLookup (k : List Char) : Option Nat :=
  monthsTable.lookup k

/-- `month_str.lower()[:3]`. -/
def monthKey (mo : List Char) : List Char := (mo.map asciiLower).take 3

/-- `months.get(month_str.lower()[:3], 1)`: three-letter lowercased prefix
looked up in the table, defaulting to January. -/
def monthNum (mo : List Char) : Nat := (monthsLookup (monthKey mo)).getD 1

/-- The two sequential `if` statements converting 12-hour to 24-hour time:
`if ampm == 'PM' and hours < 12: hours += 12` then
`if ampm == 'AM' and hours == 12: hours = 0`. -/
def adjustHours (ampm : String) (hours : Nat) : Nat :=
  let h1 := if ampm = "PM" ∧ hours < 12 then hours + 12 else hours
  if ampm = "AM" ∧ h1 = 12 then 0 else h1

/-- Proleptic-Gregorian leap year, as Python `datetime` uses. -/
def isLeap (y : Int) : Bool := y % 4 == 0 && (y % 100 != 0 || y % 400 == 0)

/-- Days in a month of a given year. -/
def daysInMonth (y : Int) (m : Nat) : Nat :=
  if m = 2 then (if isLeap y then 29 else 28)
  else if m = 4 ∨ m = 6 ∨ m = 9 ∨ m = 11 then 30 else 31

/-- Validity condition of `datetime(year, month, day, hour, minute, 0)`:
outside these bounds the constructor raises `ValueError` (caught by
`parse_date_to_iso`, which then returns `None`). -/
def datetimeOK (y : Int) (month day hour minute : Nat) : Prop :=
  1 ≤ y ∧ y ≤ 9999 ∧ 1 ≤ month ∧ month ≤ 12 ∧ 1 ≤ day
    ∧ day ≤ daysInMonth y month ∧ hour ≤ 23 ∧ minute ≤ 59

instance (y : Int) (month day hour minute : Nat) :
    Decidable (datetimeOK y month day hour minute) := by
  unfold datetimeOK; infer_instance

/-- Decimal digits of a natural number (fuel-based long division). -/
def natDigitsGo : Nat → Nat → List Char → List Char
  | 0, _, acc => acc
  | fuel + 1, n, acc =>
    if n < 10 then Char.ofNat (48 + n) :: acc
    else natDigitsGo fuel (n / 10) (Char.ofNat (48 + n % 10) :: acc)

/-- Decimal representation of a natural number as characters. -/
def natToChars (n : Nat) : List Char := natDigitsGo (n + 1) n []

/-- Zero-padded decimal field of width `w`, as `datetime.isoformat` renders
each component. -/
def padNum (w : Nat) (n : Nat) : List Char :=
  let s := natToChars n
  List.replicate (w - s.length) '0' ++ s

/-- `datetime(y, month, day, hour, minute, 0)` followed by `.isoformat()`:
`None` models the `ValueError` path; otherwise the
`YYYY-MM-DDTHH:MM:SS` string. -/
def mkDatetime (y : Int) (month day hour minute : Nat) : Option String :=
  if datetimeOK y month day hour minute then
    some (String.mk (padNum 4 y.toNat ++ '-' :: padNum 2 month ++ '-' :: padNum 2 day
      ++ 'T' :: padNum 2 hour ++ ':' :: padNum 2 minute ++ [':', '0', '0']))
  else none

/-- `parse_date_to_iso` from parser.py.  `nowYear` is `datetime.now().year`,
threaded explicitly.  Falsy input (`None` or the empty string) yields `None`;
then the stripped string is matched against the grain pattern; a non-match or
an invalid `datetime` construction yields `None`. -/
def parse_date_to_iso (dateStr : Option String) (year : Option Int) (nowYear : Int) :
    Option String :=
  match dateStr with
  | none => none
  | some s =>
    if s = "" then none else
    let clean := pyStrip s.data
    match grainMatch clean with
    | none => none
    | some (mo, day, hh, mm, (a, m)) =>
      let ampm := String.mk [asciiUpper a, asciiUpper m]
      let month := monthNum mo
      let hours := adjustHours ampm hh
      let useYear := year.getD nowYear
      mkDatetime useYear month day hours mm

/-! ### `parse_meeting_data` and `parse_meetings` -/

/-- The `Meeting` dataclass. -/
structure Meeting where
  id : String
  title : String
  url : String
  date : Option String

/-- `parse_meeting_data` from parser.py over an item with its sibling context.
`none` models the raised `ValueError` (no title element / no `href` / no
derivable id), which the caller catches per item. -/
def parse_meeting_data (it : ItemCtx) (nowYear : Int) : Option Meeting :=
  match findH3 (childrenOf it.node) with
  | none => none
  | some (h3, sibOpt) =>
    let meeting_title := getText h3
    match getAttr (attrsOf it.node) "href" with
    | none => none
    | some meeting_url =>
      match parse_meeting_id meeting_url with
      | none => none
      | some meeting_id =>
        let year := recoverYear it.prev
        let nextSibs := match sibOpt with
          | some sibs => sibs
          | none => it.next
        let meeting_date :=
          parse_date_to_iso (get_text_content (firstElem nextSibs))
            (year.map Int.ofNat) nowYear
        some ⟨meeting_id, meeting_title, meeting_url, meeting_date⟩

/-- The `for item in meeting_items` loop with its per-item
`try/except ValueError`: successes are appended, failures are logged and
skipped. -/
def parseLoop (items : List ItemCtx) (nowYear : Int) : List Meeting :=
  match items with
  | [] => []
  | it :: rest =>
    match parse_meeting_data it nowYear with
    | some me => me :: parseLoop rest nowYear
    | none => parseLoop rest nowYear

/-- The meeting items located by `parse_meetings`: the
`infinite-scrollable-div` container's matching descendants, in document
order. -/
def meetingItems (doc : List HNode) : List ItemCtx :=
  match findByIdForest "infinite-scrollable-div" doc with
  | none => []
  | some sd => collectGo [] (childrenOf sd)

/-- `parse_meetings` from parser.py.  When the container is absent the result
is empty.  (A present-but-empty container is falsy in BeautifulSoup only via
emptiness of its contents; in that case it also has no matching descendants,
so the result is the same empty list along either path.) -/
def parse_meetings (doc : List HNode) (nowYear : Int) : List Meeting :=
  match findByIdForest "infinite-scrollable-div" doc with
  | none => []
  | some sd => parseLoop (collectGo [] (childrenOf sd)) nowYear

/-! ## Helper lemmas -/

theorem takeWhile_noslash (seg rest : List Char) (h : '/' ∉ seg) :
    (seg ++ '/' :: rest).takeWhile (fun c => !(c == '/')) = seg := by
  induction seg with
  | nil => simp
  | cons a s ih =>
    simp only [List.mem_cons, not_or] at h
    have ha : (a == '/') = false := by
      simp only [beq_eq_false_iff_ne]
      exact fun e => h.1 e.symm
    simp only [List.cons_append, List.takeWhile_cons, ha, Bool.not_false, if_pos]
    rw [ih h.2]

theorem idShort_sound {cs seg : List Char} (h : idShort cs = some seg) :
    seg ≠ [] ∧ '/' ∉ seg := by
  unfold idShort at h
  cases hd : dropPrefixCh "recording/".data cs with
  | none => rw [hd] at h; exact absurd h (by simp)
  | some rest =>
    rw [hd] at h
    simp only at h
    by_cases he : (rest.takeWhile fun c => !(c == '/')).isEmpty
    · rw [if_pos he] at h; exact absurd h (by simp)
    · rw [if_neg he] at h
      injection h with h
      subst h
      refine ⟨fun e => he ?_, fun hm => ?_⟩
      · rw [e]; rfl
      · have := List.mem_takeWhile_imp hm
        simp at this

theorem idAt_sound {cs seg : List Char} (h : idAt cs = some seg) :
    seg ≠ [] ∧ '/' ∉ seg := by
  unfold idAt at h
  cases hd : dropPrefixCh "recordings/".data cs with
  | none => rw [hd] at h; exact idShort_sound h
  | some rest =>
    rw [hd] at h
    simp only at h
    by_cases he : (rest.takeWhile fun c => !(c == '/')).isEmpty
    · rw [if_pos he] at h; exact idShort_sound h
    · rw [if_neg he] at h
      injection h with h
      subst h
      refine ⟨fun e => he ?_, fun hm => ?_⟩
      · rw [e]; rfl
      · have := List.mem_takeWhile_imp hm
        simp at this

theorem idScan_sound : ∀ cs seg, idScan cs = some seg → seg ≠ [] ∧ '/' ∉ seg := by
  intro cs
  induction cs with
  | nil => intro seg h; exact absurd h (by simp [idScan])
  | cons c rest ih =>
    intro seg h
    cases hA : idAt (c :: rest) with
    | some s =>
      rw [idScan, hA] at h
      injection h with h
      subst h
      exact idAt_sound hA
    | none =>
      rw [idScan, hA] at h
      exact ih seg h

theorem idAt_recording (seg rest : List Char) (hne : seg ≠ []) (hns : '/' ∉ seg) :
    idAt ('r' :: 'e' :: 'c' :: 'o' :: 'r' :: 'd' :: 'i' :: 'n' :: 'g' :: '/' :: (seg ++ '/' :: rest))
      = some seg := by
  obtain ⟨a, s, rfl⟩ : ∃ a s, seg = a :: s := by
    cases seg with
    | nil => exact absurd rfl hne
    | cons a s => exact ⟨a, s, rfl⟩
  show (if (((a :: s) ++ '/' :: rest).takeWhile fun c => !(c == '/')).isEmpty then none
        else some (((a :: s) ++ '/' :: rest).takeWhile fun c => !(c == '/')))
      = some (a :: s)
  rw [takeWhile_noslash _ _ hns]
  rfl

theorem idAt_recordings (seg rest : List Char) (hne : seg ≠ []) (hns : '/' ∉ seg) :
    idAt ('r' :: 'e' :: 'c' :: 'o' :: 'r' :: 'd' :: 'i' :: 'n' :: 'g' :: 's' :: '/' :: (seg ++ '/' :: rest))
      = some seg := by
  obtain ⟨a, s, rfl⟩ : ∃ a s, seg = a :: s := by
    cases seg with
    | nil => exact absurd rfl hne
    | cons a s => exact ⟨a, s, rfl⟩
  show (if (((a :: s) ++ '/' :: rest).takeWhile fun c => !(c == '/')).isEmpty then
          idShort ('r' :: 'e' :: 'c' :: 'o' :: 'r' :: 'd' :: 'i' :: 'n' :: 'g' :: 's' :: '/' :: ((a :: s) ++ '/' :: rest))
        else some (((a :: s) ++ '/' :: rest).takeWhile fun c => !(c == '/')))
      = some (a :: s)
  rw [takeWhile_noslash _ _ hns]
  rfl

/-! ## Claim theorems -/

/-- C4: `parse_meeting_id` derives the id from the segment following a path
component literally `recording` or `recordings` (the `'/'`-delimited segment
becomes the id), returns `None` when no such match exists, and in particular
behaves as specified on the three sample URLs. -/
theorem parse_meeting_id_spec (seg rest : List Char) (hne : seg ≠ []) (hns : '/' ∉ seg) :
    parse_meeting_id "https://x/share/recording/abc123-456-789/xyz987" = some "abc123-456-789"
    ∧ parse_meeting_id "https://x/share/abc123" = none
    ∧ parse_meeting_id "" = none
    ∧ idScan ('r' :: 'e' :: 'c' :: 'o' :: 'r' :: 'd' :: 'i' :: 'n' :: 'g' :: '/' :: (seg ++ '/' :: rest)) = some seg
    ∧ idScan ('r' :: 'e' :: 'c' :: 'o' :: 'r' :: 'd' :: 'i' :: 'n' :: 'g' :: 's' :: '/' :: (seg ++ '/' :: rest)) = some seg := by
  refine ⟨by rfl, by rfl, by rfl, ?_, ?_⟩
  · rw [idScan, idAt_recording seg rest hne hns]
  · rw [idScan, idAt_recordings seg rest hne hns]

/-- Witness for C4 at the concrete segment `q`. -/
theorem parse_meeting_id_spec_witness :
    parse_meeting_id "https://x/share/recording/abc123-456-789/xyz987" = some "abc123-456-789"
    ∧ idScan ('r' :: 'e' :: 'c' :: 'o' :: 'r' :: 'd' :: 'i' :: 'n' :: 'g' :: '/' :: (['q'] ++ '/' :: [])) = some ['q'] :=
  ⟨(parse_meeting_id_spec ['q'] [] (by simp) (by simp)).1,
   (parse_meeting_id_spec ['q'] [] (by simp) (by simp)).2.2.2.1⟩

/-- C10: whenever `parse_meeting_id` returns a value, that value is a
nonempty string containing no `'/'` — it is exactly one `'/'`-delimited
segment of the URL. -/
theorem parse_meeting_id_segment (url id : String) (h : parse_meeting_id url = some id) :
    id ≠ "" ∧ '/' ∉ id.data := by
  unfold parse_meeting_id at h
  cases hs : idScan url.data with
  | none => rw [hs] at h; exact absurd h (by simp)
  | some seg =>
    rw [hs] at h
    simp only [Option.map_some'] at h
    obtain ⟨hne, hns⟩ := idScan_sound _ _ hs
    obtain rfl : String.mk seg = id := by injection h
    exact ⟨fun e => hne (congrArg String.data e), hns⟩

/-- Witness for C10 at a concrete URL. -/
theorem parse_meeting_id_segment_witness :
    ("abc123-456-789" : String) ≠ "" ∧ '/' ∉ ("abc123-456-789" : String).data :=
  parse_meeting_id_segment "https://x/share/recording/abc123-456-789/xyz987"
    "abc123-456-789" (by rfl)

/-- C2: the 12-hour to 24-hour conversion of `parse_date_to_iso`: PM with hour
below 12 adds 12, AM with hour 12 becomes 0, all other meridiem/hour
combinations pass through unchanged; and the two sample inputs yield the
specified ISO timestamps (seconds 0, no timezone), for any ambient current
year since an explicit year is supplied. -/
theorem date_conversion_spec (h : Nat) :
    (h < 12 → adjustHours "PM" h = h + 12)
    ∧ adjustHours "AM" 12 = 0
    ∧ (12 ≤ h → adjustHours "PM" h = h)
    ∧ (h ≠ 12 → adjustHours "AM" h = h)
    ∧ parse_date_to_iso (some "Mar, 15th 2:30 PM") (some 2023) 2025 = some "2023-03-15T14:30:00"
    ∧ parse_date_to_iso (some "Apr, 1st 12:05 AM") (some 2024) 2025 = some "2024-04-01T00:05:00" := by
  refine ⟨?_, by rfl, ?_, ?_, by rfl, by rfl⟩
  · intro hlt
    simp [adjustHours, hlt]
  · intro hge
    have hn : ¬ (h < 12) := by omega
    simp [adjustHours, hn]
  · intro hne
    simp [adjustHours, hne]

/-- Witness for C2 at concrete hours. -/
theorem date_conversion_spec_witness :
    adjustHours "PM" 2 = 2 + 12 ∧ adjustHours "AM" 12 = 0
    ∧ adjustHours "PM" 13 = 13 ∧ adjustHours "AM" 7 = 7
    ∧ parse_date_to_iso (some "Mar, 15th 2:30 PM") (some 2023) 2025 = some "2023-03-15T14:30:00" :=
  ⟨(date_conversion_spec 2).1 (by decide),
   (date_conversion_spec 2).2.1,
   (date_conversion_spec 13).2.2.1 (by decide),
   (date_conversion_spec 7).2.2.2.1 (by decide),
   (date_conversion_spec 2).2.2.2.2.1⟩

/-- C7: month resolution in `parse_date_to_iso` uses only the first three
letters of the matched month token, lower-cased, mapped to 1–12; the result
depends on nothing else of the token; an unrecognized three-letter prefix
silently resolves to month 1 (January) rather than failing, as the sample
input `"Xyz, 15th 2:30 PM"` shows; and a case-insensitive full month name
also resolves through its abbreviation. -/
theorem month_resolution_spec (s t : List Char) :
    (monthKey s = monthKey t → monthNum s = monthNum t)
    ∧ (monthsLookup (monthKey s) = none → monthNum s = 1)
    ∧ 1 ≤ monthNum s ∧ monthNum s ≤ 12
    ∧ parse_date_to_iso (some "Xyz, 15th 2:30 PM") (some 2023) 2025 = some "2023-01-15T14:30:00"
    ∧ parse_date_to_iso (some "DECEMBER, 5th 1:00 PM") (some 2023) 2025 = some "2023-12-05T13:00:00" := by
  refine ⟨?_, ?_, ?_, ?_, by rfl, by rfl⟩
  · intro he
    simp only [monthNum, he]
  · intro he
    simp only [monthNum, he, Option.getD_none]
  all_goals
    simp only [monthNum, monthsLookup, monthsTable, List.lookup]
    repeat' split
    all_goals simp

/-- Witness for C7 at concrete month tokens. -/
theorem month_resolution_spec_witness :
    monthNum "mArCh".data = monthNum "MARble".data
    ∧ monthNum "Xyz".data = 1
    ∧ parse_date_to_iso (some "Xyz, 15th 2:30 PM") (some 2023) 2025 = some "2023-01-15T14:30:00" :=
  ⟨(month_resolution_spec "mArCh".data "MARble".data).1 (by rfl),
   (month_resolution_spec "Xyz".data "Xyz".data).2.1 (by rfl),
   (month_resolution_spec "Xyz".data "Xyz".data).2.2.2.2.1⟩

theorem mkDatetime_eq_none_iff (y : Int) (month day hour minute : Nat) :
    mkDatetime y month day hour minute = none ↔ ¬ datetimeOK y month day hour minute := by
  unfold mkDatetime
  split
  · simp_all
  · simp_all

/-- C5 as frozen is refuted here: the hour field of the pattern is `(\d+)`,
not restricted to 1–12, so the input `"Mar, 15th 13:30 PM"` — whose matched
hour 13 lies outside the claimed shape — does not yield `None`: PM with hour
13 is not below 12, the hour passes through, `datetime` accepts it, and a
timestamp is returned. -/
theorem date_parse_hour13_counterexample :
    parse_date_to_iso (some "Mar, 15th 13:30 PM") (some 2023) 2025
      = some "2023-03-15T13:30:00"
    ∧ (grainMatch (pyStrip ("Mar, 15th 13:30 PM" : String).data)).map
        (fun r => r.2.2.1) = some 13 :=
  ⟨rfl, rfl⟩

/-- C5 amended: `parse_date_to_iso` is total (never raises) and returns `None`
exactly when the input is `None` or empty, or the stripped text fails the
prefix pattern `<Letters>, <Digits><st|nd|rd|th>? <Digits>:<Digits> <AM|PM>`
(case-insensitive, trailing text ignored, hour and minute arbitrary digit
strings), or constructing the timestamp from the resolved fields (after the
12-hour adjustment) fails; otherwise it returns a timestamp string.  Matched
numeric fields outside the spec's 1–12 / 0–59 ranges are rejected only
through the construction step, so e.g. hour 13 still yields a timestamp. -/
theorem date_parse_none_spec (d : Option String) (y : Option Int) (n : Int) :
    (parse_date_to_iso d y n = none ↔
      ∀ s : String, d = some s → s ≠ "" →
        ∀ mo day hh mm a m,
          grainMatch (pyStrip s.data) = some (mo, day, hh, mm, (a, m)) →
          ¬ datetimeOK (y.getD n) (monthNum mo) day
              (adjustHours (String.mk [asciiUpper a, asciiUpper m]) hh) mm)
    ∧ parse_date_to_iso none y n = none
    ∧ parse_date_to_iso (some "") y n = none
    ∧ parse_date_to_iso (some "Invalid date") y n = none := by
  refine ⟨?_, rfl, rfl, by rfl⟩
  cases d with
  | none => simp [parse_date_to_iso]
  | some s =>
    by_cases hs : s = ""
    · subst hs
      simp [parse_date_to_iso]
    · simp only [parse_date_to_iso, if_neg hs]
      cases hg : grainMatch (pyStrip s.data) with
      | none =>
        constructor
        · intro _ s' hs' _ mo day hh mm a m hgm
          obtain rfl : s = s' := by injection hs'
          rw [hg] at hgm
          exact absurd hgm (by simp)
        · intro _
          rfl
      | some r =>
        obtain ⟨mo, day, hh, mm, a, m⟩ := r
        show mkDatetime (y.getD n) (monthNum mo) day
            (adjustHours (String.mk [asciiUpper a, asciiUpper m]) hh) mm = none ↔ _
        rw [mkDatetime_eq_none_iff]
        constructor
        · intro hnot s' hs' _ mo' day' hh' mm' a' m' hgm
          obtain rfl : s = s' := by injection hs'
          rw [hg] at hgm
          obtain ⟨rfl, rfl, rfl, rfl, rfl, rfl⟩ :
              mo = mo' ∧ day = day' ∧ hh = hh' ∧ mm = mm' ∧ a = a' ∧ m = m' := by
            have := Option.some.inj hgm
            simp only [Prod.mk.injEq] at this
            exact ⟨this.1, this.2.1, this.2.2.1, this.2.2.2.1, this.2.2.2.2.1, this.2.2.2.2.2⟩
          exact hnot
        · intro hall
          exact hall s rfl hs mo day hh mm a m hg

/-- Witness for C5's amended characterization at a concrete unparseable
input. -/
theorem date_parse_none_spec_witness :
    parse_date_to_iso (some "Invalid date") none 2024 = none :=
  (date_parse_none_spec (some "Invalid date") none 2024).2.2.2

/-- A sample meeting item whose heading element exists but holds no text. -/
def emptyTitleItem : HNode :=
  .elem "a"
    [("role", "article"), ("data-cy", "meeting-list-item"),
     ("href", "/share/recording/abc/x")]
    [.elem "h3" [] []]

/-- A document containing the container and the empty-heading item. -/
def emptyTitleDoc : List HNode :=
  [.elem "div" [("id", "infinite-scrollable-div")] [emptyTitleItem]]

/-- C8 as frozen is refuted here: `parse_meeting_data` raises only when the
heading ELEMENT is missing (`get_text_content` returned `None`); an empty
heading yields the empty string, which is not `None`, so the item is emitted
with `title = ""` rather than dropped. -/
theorem empty_title_counterexample :
    parse_meetings emptyTitleDoc 2025
      = [{ id := "abc", title := "", url := "/share/recording/abc/x", date := none }]
    ∧ (parse_meetings emptyTitleDoc 2025).map Meeting.title = [""] :=
  ⟨rfl, rfl⟩

/-- C8 amended: an item with no heading-level descendant is dropped
(`MissingField(title)`), and every emitted Meeting's title is exactly the
stripped text of the item's first heading element — which may be the empty
string; an empty heading is emitted, not dropped. -/
theorem title_extraction_spec (it : ItemCtx) (n : Int) :
    (findH3 (childrenOf it.node) = none → parse_meeting_data it n = none)
    ∧ (∀ me, parse_meeting_data it n = some me →
        ∃ h3 sibs, findH3 (childrenOf it.node) = some (h3, sibs)
          ∧ me.title = getText h3) := by
  constructor
  · intro h
    unfold parse_meeting_data
    rw [h]
  · intro me hme
    unfold parse_meeting_data at hme
    cases hf : findH3 (childrenOf it.node) with
    | none => rw [hf] at hme; exact absurd hme (by simp)
    | some p =>
      obtain ⟨h3, sibs⟩ := p
      rw [hf] at hme
      refine ⟨h3, sibs, rfl, ?_⟩
      simp only at hme
      cases ha : getAttr (attrsOf it.node) "href" with
      | none => rw [ha] at hme; exact absurd hme (by simp)
      | some u =>
        rw [ha] at hme
        simp only at hme
        cases hid : parse_meeting_id u with
        | none => rw [hid] at hme; exact absurd hme (by simp)
        | some i =>
          rw [hid] at hme
          simp only at hme
          obtain rfl : _ = me := Option.some.inj hme
          rfl

/-- Witness for C8's amended claim at a concrete item with no heading. -/
theorem title_extraction_spec_witness :
    parse_meeting_data ⟨[], HNode.elem "a" [] [], []⟩ 0 = none :=
  (title_extraction_spec ⟨[], HNode.elem "a" [] [], []⟩ 0).1 rfl

theorem recoverGo_append (l rest : List HNode)
    (h : ∀ e ∈ l, isDiv e = true → divYear e = none) :
    recoverGo (l ++ rest) = recoverGo rest := by
  induction l with
  | nil => rfl
  | cons a l' ih =>
    have ih' := ih (fun e he hde => h e (List.mem_cons_of_mem a he) hde)
    simp only [List.cons_append, recoverGo]
    by_cases hd : isDiv a = true
    · rw [if_pos hd, h a (List.mem_cons_self a l') hd]
      exact ih'
    · rw [if_neg hd]
      exact ih'

/-- C3: year recovery walks backward over preceding siblings, consults `div`
elements only, and the year of the nearest preceding `div` whose text contains
a standalone `20\d\d` token wins — arbitrary more-distant siblings `xs` never
override it, and the following siblings are never consulted (they are not an
input of `recoverYear` at all); when no preceding `div` sibling matches, the
recovered year is `None`, in which case `parse_date_to_iso` falls back to the
current calendar year (its `nowYear` argument). -/
theorem year_recovery_spec (xs ys : List HNode) (d : HNode) (y : Nat)
    (hdiv : isDiv d = true) (hy : divYear d = some y)
    (hys : ∀ e ∈ ys, isDiv e = true → divYear e = none) :
    recoverYear (xs ++ d :: ys) = some y
    ∧ (∀ zs : List HNode, (∀ e ∈ zs, isDiv e = true → divYear e = none) →
        recoverYear zs = none)
    ∧ parse_date_to_iso (some "Mar, 15th 2:30 PM") none 2026 = some "2026-03-15T14:30:00" := by
  refine ⟨?_, ?_, by rfl⟩
  · unfold recoverYear
    rw [List.reverse_append, List.reverse_cons, List.append_assoc]
    rw [recoverGo_append _ _ (fun e he => hys e (List.mem_reverse.mp he))]
    show recoverGo (d :: xs.reverse) = some y
    simp only [recoverGo, hdiv, if_true, hy]
  · intro zs hzs
    unfold recoverYear
    have := recoverGo_append zs.reverse [] (fun e he => hzs e (List.mem_reverse.mp he))
    simpa using this

/-- Witness for C3: the nearest preceding `div` holds 2022; a nearer `span`
sibling mentioning 2024 is skipped because it is not a `div`. -/
theorem year_recovery_spec_witness :
    recoverYear [HNode.text "x", HNode.elem "div" [] [HNode.text "March 2022"],
      HNode.elem "span" [] [HNode.text "2024"]] = some 2022 :=
  (year_recovery_spec [HNode.text "x"] [HNode.elem "span" [] [HNode.text "2024"]]
    (HNode.elem "div" [] [HNode.text "March 2022"]) 2022 rfl rfl
    (by
      intro e he hde
      simp only [List.mem_singleton] at he
      subst he
      exact absurd hde (by decide))).1

/-- C6: a document without the `infinite-scrollable-div` container (including
the empty document) parses to the empty sequence, and so does a document whose
container contains no matching meeting-item nodes; neither case fails. -/
theorem empty_result_spec (doc : List HNode) (n : Int) :
    (findByIdForest "infinite-scrollable-div" doc = none → parse_meetings doc n = [])
    ∧ (∀ sd, findByIdForest "infinite-scrollable-div" doc = some sd →
        collectGo [] (childrenOf sd) = [] → parse_meetings doc n = [])
    ∧ parse_meetings [] n = [] := by
  refine ⟨?_, ?_, rfl⟩
  · intro h
    unfold parse_meetings
    rw [h]
  · intro sd h hc
    unfold parse_meetings
    rw [h]
    show parseLoop (collectGo [] (childrenOf sd)) n = []
    rw [hc]
    rfl

/-- Witness for C6 at a container-less document and at a container with no
matching items. -/
theorem empty_result_spec_witness :
    parse_meetings [HNode.elem "div" [] [HNode.text "No meetings here"]] 2025 = []
    ∧ parse_meetings [HNode.elem "div" [("id", "infinite-scrollable-div")]
        [HNode.text "hi"]] 2025 = [] :=
  ⟨(empty_result_spec [HNode.elem "div" [] [HNode.text "No meetings here"]] 2025).1 rfl,
   (empty_result_spec [HNode.elem "div" [("id", "infinite-scrollable-div")]
      [HNode.text "hi"]] 2025).2.1 _ rfl rfl⟩

/-- C9: parsing is deterministic and stateless — the result is a pure function
of the document and the reference year, so two calls on the same document at
the same reference time agree structurally, field by field. -/
theorem parse_idempotent (d1 d2 : List HNode) (n : Int) (h : d1 = d2) :
    parse_meetings d1 n = parse_meetings d2 n
    ∧ (parse_meetings d1 n).map Meeting.id = (parse_meetings d2 n).map Meeting.id
    ∧ (parse_meetings d1 n).map Meeting.title = (parse_meetings d2 n).map Meeting.title
    ∧ (parse_meetings d1 n).map Meeting.url = (parse_meetings d2 n).map Meeting.url
    ∧ (parse_meetings d1 n).map Meeting.date = (parse_meetings d2 n).map Meeting.date := by
  subst h
  exact ⟨rfl, rfl, rfl, rfl, rfl⟩

/-- Witness for C9 on a concrete document. -/
theorem parse_idempotent_witness :
    parse_meetings [HNode.text "w"] 0 = parse_meetings [HNode.text "w"] 0 :=
  (parse_idempotent [HNode.text "w"] [HNode.text "w"] 0 rfl).1

theorem parseLoop_eq_filterMap (items : List ItemCtx) (n : Int) :
    parseLoop items n = items.filterMap (fun it => parse_meeting_data it n) := by
  induction items with
  | nil => rfl
  | cons it rest ih =>
    cases h : parse_meeting_data it n with
    | none => simp only [parseLoop, h, List.filterMap_cons, ih]
    | some me => simp only [parseLoop, h, List.filterMap_cons, ih]

/-- Heading element holding text `t`, in the sample page shape. -/
def h3Of (t : String) : HNode := .elem "h3" [("title", t)] [.text t]

/-- A meeting item in the sample page shape, with heading and date-line
blocks. -/
def itemOf (href title date : String) : HNode :=
  .elem "a" [("role", "article"), ("data-cy", "meeting-list-item"), ("href", href)]
    [.elem "div" [] [.elem "div" [] [h3Of title], .elem "div" [] [.text date]]]

/-- A section-header division as on the sample page. -/
def headerOf (s : String) : HNode := .elem "div" [] [.text s]

/-- A document with three items, the middle of which has no derivable id. -/
def midFailDoc : List HNode :=
  [.elem "div" [("id", "infinite-scrollable-div")]
    [.elem "section" []
      [headerOf "Wednesday, Mar 15th 2023",
       itemOf "/share/recording/aaa/x" "Alpha" "Mar, 15th 2:30 PM · 45m",
       itemOf "/share/bad" "Beta" "Mar, 15th 1:15 PM",
       itemOf "/share/recording/ccc/y" "Gamma" "Mar, 14th 3:00 PM"]]]

/-- C1: `parse_meetings` is exactly the per-item extraction filter-mapped over
the located items in document order: every item whose extraction fails
(missing title element, URL, or derivable id) is dropped, every other item
appears, order is preserved with no sorting, and one failure never aborts the
rest — as the concrete three-item document with an invalid middle item also
shows. -/
theorem parse_failures_skipped (doc : List HNode) (n : Int) :
    parse_meetings doc n
      = (meetingItems doc).filterMap (fun it => parse_meeting_data it n)
    ∧ parse_meetings midFailDoc 2026
      = [{ id := "aaa", title := "Alpha", url := "/share/recording/aaa/x",
           date := some "2023-03-15T14:30:00" },
         { id := "ccc", title := "Gamma", url := "/share/recording/ccc/y",
           date := some "2023-03-14T15:00:00" }] := by
  constructor
  · unfold parse_meetings meetingItems
    cases findByIdForest "infinite-scrollable-div" doc with
    | none => rfl
    | some sd => exact parseLoop_eq_filterMap _ _
  · rfl

end Grain
